import Mathlib

/-!
Verification of the repository-metadata middleware
(`src/functions/_middleware.js`) against its natural-language
specification.

The JavaScript source is shallowly embedded:
* `JsVal` models JavaScript values as they appear after `JSON.parse`
  (plus `undefined`), with property access, index access, optional
  chaining, truthiness and string interpolation following JS semantics.
* The repository-reference normalization (lines 22–33 of the source) is
  embedded as `normalizeRepoPath`, operating on character lists.
* `getRepoInfo` (lines 19–89) is embedded with exceptions modelled as
  `Except String` and the try/catch flattened into explicit matches;
  the upstream `fetch` is an oracle (`World`).  The function also
  returns the list of HTTP requests it issued, so that claims about
  headers and about requests *not* being issued can be stated.
* `onRequest` (lines 94–185) is embedded over an abstract inbound
  request; `Response` construction is modelled by `HttpResponse`.
-/

/-- A JavaScript value (the subset produced by `JSON.parse`, plus
`undefined`).  Numbers are modelled as integers: no claim depends on
non-integer arithmetic. -/
inductive JsVal where
  | undefined : JsVal
  | null : JsVal
  | bool (b : Bool) : JsVal
  | num (n : Int) : JsVal
  | str (s : String) : JsVal
  | arr (xs : List JsVal) : JsVal
  | obj (fields : List (String × JsVal)) : JsVal
deriving Repr

/-- First field of an object with the given key (JS objects built by
`JSON.parse` have unique keys; lookup returns the first match). -/
def lookupField : List (String × JsVal) → String → Option JsVal
  | [], _ => none
  | (k, v) :: rest, key => if k = key then some v else lookupField rest key

/-- JS property access `v.k`.  Throws a `TypeError` on `undefined` and
`null`; yields `undefined` for a missing key or a primitive receiver. -/
def JsVal.getProp : JsVal → String → Except String JsVal
  | .undefined, k => .error ("Cannot read properties of undefined (reading " ++ k ++ ")")
  | .null, k => .error ("Cannot read properties of null (reading " ++ k ++ ")")
  | .obj fields, k =>
      .ok (match lookupField fields k with
           | some v => v
           | none => .undefined)
  | .arr xs, k => .ok (if k = "length" then .num xs.length else .undefined)
  | _, _ => .ok .undefined

/-- JS index access `v[i]` for a numeric literal index. -/
def JsVal.getIndex : JsVal → Nat → Except String JsVal
  | .undefined, i => .error ("Cannot read properties of undefined (reading " ++ toString i ++ ")")
  | .null, i => .error ("Cannot read properties of null (reading " ++ toString i ++ ")")
  | .arr xs, i =>
      .ok (match xs.get? i with
           | some v => v
           | none => .undefined)
  | .obj fields, i =>
      .ok (match lookupField fields (toString i) with
           | some v => v
           | none => .undefined)
  | .str s, i =>
      .ok (match s.data.get? i with
           | some c => .str (String.mk [c])
           | none => .undefined)
  | _, _ => .ok .undefined

/-- JS optional-chaining access `v?.k`: nullish receivers short-circuit
to `undefined` instead of throwing. -/
def JsVal.optChainProp (v : JsVal) (k : String) : Except String JsVal :=
  match v with
  | .undefined => .ok .undefined
  | .null => .ok .undefined
  | v => v.getProp k

/-- JS truthiness. -/
def JsVal.truthy : JsVal → Bool
  | .undefined => false
  | .null => false
  | .bool b => b
  | .num n => n != 0
  | .str s => s != ""
  | .arr _ => true
  | .obj _ => true

/-- `Array.isArray`. -/
def JsVal.isArray : JsVal → Bool
  | .arr _ => true
  | _ => false

/-- Elements of an array value (used only under an `isArray` guard). -/
def JsVal.arrElems : JsVal → List JsVal
  | .arr xs => xs
  | _ => []

mutual

/-- JS string conversion as performed by template literals:
`undefined`/`null` print literally, arrays join their elements with
commas (nullish elements printing as empty), objects print as
`[object Object]`. -/
def JsVal.interp : JsVal → String
  | .undefined => "undefined"
  | .null => "null"
  | .bool b => if b then "true" else "false"
  | .num n => toString n
  | .str s => s
  | .arr xs => JsVal.interpArr xs
  | .obj _ => "[object Object]"

/-- `Array.prototype.join` with separator `","` as used by JS array
string conversion. -/
def JsVal.interpArr : List JsVal → String
  | [] => ""
  | v :: rest =>
      (match v with
       | .undefined => ""
       | .null => ""
       | w => JsVal.interp w)
      ++ (match rest with
          | [] => ""
          | _ :: _ => "," ++ JsVal.interpArr rest)

end

/-! ### The repository-reference normalizer (source lines 22–33)

The normalizer is embedded over `List Char`.  `isPre`, `isSuf` and
`infixOf` are executable prefix/suffix/infix tests used to model the
regexes `/https?:\/\/github\.com\//`, `/\.git$/`, `/\/$/` and the
`includes`/`split` calls. -/

/-- Executable prefix test on character lists. -/
def isPre : List Char → List Char → Bool
  | [], _ => true
  | _ :: _, [] => false
  | a :: as, b :: bs => a == b && isPre as bs

/-- Executable suffix test on character lists. -/
def isSuf (p l : List Char) : Bool := isPre p.reverse l.reverse

/-- Executable infix (substring) test on character lists, modelling
`String.prototype.includes`. -/
def infixOf : List Char → List Char → Bool
  | p, [] => isPre p []
  | p, c :: rest => isPre p (c :: rest) || infixOf p rest

/-- The pattern `"github.com/"` of the `includes` guard (line 23). -/
def ghHostPat : List Char := "github.com/".data

/-- The alternative `https://github.com/` of the regex on line 24. -/
def httpsHostPat : List Char := "https://github.com/".data

/-- The alternative `http://github.com/` of the regex on line 24. -/
def httpHostPat : List Char := "http://github.com/".data

/-- The pattern `".git"` of the anchored regex `/\.git$/` (line 28). -/
def dotGitPat : List Char := ".git".data

/-- The pattern `"/tree/"` of the `includes`/`split` on lines 31–32. -/
def treePat : List Char := "/tree/".data

/-- `repoPath.replace(/https?:\/\/github\.com\//, '')` (line 24): remove
the leftmost match of the regex, i.e. the leftmost occurrence of
`https://github.com/` or `http://github.com/`; unchanged if neither
occurs. -/
def stripHostFirst : List Char → List Char
  | [] => []
  | c :: rest =>
      if isPre httpsHostPat (c :: rest) then (c :: rest).drop httpsHostPat.length
      else if isPre httpHostPat (c :: rest) then (c :: rest).drop httpHostPat.length
      else c :: stripHostFirst rest

/-- `replace(/<pat>$/, '')`: strip one occurrence of `pat` from the end
of the string, if present (models lines 28's two anchored regexes). -/
def stripSuffixOnce (p l : List Char) : List Char :=
  if isSuf p l then (l.reverse.drop p.length).reverse else l

/-- `s.split(pat)[0]`: the portion of `s` before the leftmost occurrence
of `pat` (the whole of `s` if `pat` does not occur) — line 32. -/
def beforeFirst (p : List Char) : List Char → List Char
  | [] => []
  | c :: rest => if isPre p (c :: rest) then [] else c :: beforeFirst p rest

/-- Step 1 (lines 23–25): if the string contains `github.com/`, remove
the first regex match of `https?:\/\/github\.com\/`. -/
def normStep1 (l : List Char) : List Char :=
  if infixOf ghHostPat l then stripHostFirst l else l

/-- Step 2 (line 28, first replace): strip a trailing `.git`. -/
def normStep2 (l : List Char) : List Char := stripSuffixOnce dotGitPat l

/-- Step 3 (line 28, second replace): strip a trailing `/`. -/
def normStep3 (l : List Char) : List Char := stripSuffixOnce ['/'] l

/-- Step 4 (lines 31–33): if the string contains `/tree/`, keep only the
portion before its first occurrence. -/
def normStep4 (l : List Char) : List Char :=
  if infixOf treePat l then beforeFirst treePat l else l

/-- The full normalization of lines 22–33, at the `String` level. -/
def normalizeRepoPath (s : String) : String :=
  String.mk (normStep4 (normStep3 (normStep2 (normStep1 s.data))))

/-- The first transformation of the normalizer alone (lines 23–25), at
the `String` level. -/
def normalizeStep1 (s : String) : String := String.mk (normStep1 s.data)

/-- The normalization applied to an arbitrary JS value, as `getRepoInfo`
does: on a string it is `normalizeRepoPath`; any other value makes the
method call `repoPath.includes(...)` (or, for arrays, the subsequent
`.replace`) throw a `TypeError`, which the surrounding `catch` turns
into a degraded result. -/
def normalizeJs : JsVal → Except String String
  | .str s => .ok (normalizeRepoPath s)
  | .arr _ => .error "repoPath.replace is not a function"
  | _ => .error "repoPath.includes is not a function"

/-! ### The repository-info fetcher (source lines 19–89) -/

/-- An outbound HTTP GET request as built by `getRepoInfo`: the URL and
the three headers set on lines 36–42 and 51–57.  The `Authorization`
header is `Option`-valued so that "the request carries no Authorization
header" is expressible; the source always sets it (`some _`). -/
structure GhRequest where
  url : String
  userAgent : String
  accept : String
  authorization : Option String
deriving Repr, DecidableEq

/-- An upstream response as observed by the code: the `ok` flag, the
`status` code, and the result of `await response.json()` (which may
itself throw, e.g. on a malformed body). -/
structure GhResponse where
  ok : Bool
  status : Nat
  json : Except String JsVal

/-- The network oracle: what `await fetch(request)` returns for each
request — either a response or a thrown network error. -/
structure World where
  fetch : GhRequest → Except String GhResponse

/-- `const CACHE_TIME = 60 * 60` (line 7). -/
def CACHE_TIME : Nat := 60 * 60

/-- `const CACHE_CONTROL = `public, max-age=${CACHE_TIME}`` (line 8). -/
def CACHE_CONTROL : String := "public, max-age=" ++ toString CACHE_TIME

/-- `const GITHUB_API_BASE = 'https://api.github.com'` (line 11). -/
def GITHUB_API_BASE : String := "https://api.github.com"

/-- `const USER_AGENT = 'YackSuite-Tool-Status-Checker'` (line 12). -/
def USER_AGENT : String := "YackSuite-Tool-Status-Checker"

/-- The repository-metadata request of lines 36–42:
`fetch(`${GITHUB_API_BASE}/repos/${repoPath}`, {headers})` with
`User-Agent`, `Accept`, and `Authorization: Bearer ${githubToken}`
(the latter interpolates `undefined` when no token is supplied). -/
def metaRequest (repoPath : String) (githubToken : JsVal) : GhRequest where
  url := GITHUB_API_BASE ++ "/repos/" ++ repoPath
  userAgent := USER_AGENT
  accept := "application/vnd.github.v3+json"
  authorization := some ("Bearer " ++ githubToken.interp)

/-- The commit-list request of lines 51–57:
`fetch(`${GITHUB_API_BASE}/repos/${repoPath}/commits?per_page=1&sha=${repoData.default_branch}`, {headers})`. -/
def commitsRequest (repoPath : String) (githubToken : JsVal) (branch : JsVal) : GhRequest where
  url := GITHUB_API_BASE ++ "/repos/" ++ repoPath ++ "/commits?per_page=1&sha=" ++ branch.interp
  userAgent := USER_AGENT
  accept := "application/vnd.github.v3+json"
  authorization := some ("Bearer " ++ githubToken.interp)

/-- The owner sub-record of the success result (lines 75–79). -/
structure OwnerInfo where
  login : JsVal
  avatar_url : JsVal
  url : JsVal
deriving Repr

/-- The success-shaped repository-info record assembled on lines 65–80. -/
structure RepoInfo where
  name : JsVal
  full_name : JsVal
  description : JsVal
  url : JsVal
  stars : JsVal
  forks : JsVal
  last_updated : JsVal
  last_commit_message : JsVal
  last_commit_url : JsVal
  owner : OwnerInfo
deriving Repr

/-- The value `getRepoInfo` resolves to: either the full record of
lines 65–80, or the degraded variant of lines 83–87
`{name: repoFullName, error: error.message, last_updated: null}`
(the `last_updated: null` field is implicit in the constructor). -/
inductive RepoResult where
  | info (i : RepoInfo) : RepoResult
  | degraded (name : JsVal) (error : String) : RepoResult
deriving Repr

/-- The optional chain `commits[0]?.commit?.committer?.date` (line 72),
starting from the already-indexed first element. -/
def commitDate (c0 : JsVal) : Except String JsVal := do
  let a ← c0.optChainProp "commit"
  let b ← a.optChainProp "committer"
  b.optChainProp "date"

/-- The record assembly of lines 65–80, evaluated left-to-right in
source order; property accesses may throw (caught by the caller). -/
def buildInfo (repoData commits : JsVal) : Except String RepoInfo := do
  let name ← repoData.getProp "name"
  let full_name ← repoData.getProp "full_name"
  let description ← repoData.getProp "description"
  let url ← repoData.getProp "html_url"
  let stars ← repoData.getProp "stargazers_count"
  let forks ← repoData.getProp "forks_count"
  let c0a ← commits.getIndex 0
  let date ← commitDate c0a
  let last_updated ← if date.truthy then pure date else repoData.getProp "updated_at"
  let c0b ← commits.getIndex 0
  let m1 ← c0b.optChainProp "commit"
  let msg ← m1.optChainProp "message"
  let last_commit_message := if msg.truthy then msg else JsVal.str ""
  let c0c ← commits.getIndex 0
  let curl ← c0c.optChainProp "html_url"
  let last_commit_url := if curl.truthy then curl else JsVal.str ""
  let owner ← repoData.getProp "owner"
  let owner_login ← owner.getProp "login"
  let owner_avatar ← owner.getProp "avatar_url"
  let owner_url ← owner.getProp "html_url"
  pure { name := name, full_name := full_name, description := description,
         url := url, stars := stars, forks := forks,
         last_updated := last_updated,
         last_commit_message := last_commit_message,
         last_commit_url := last_commit_url,
         owner := { login := owner_login, avatar_url := owner_avatar, url := owner_url } }

/-- `getRepoInfo(repoFullName, githubToken)` (lines 19–89).  The
try/catch is flattened: every `.error` branch is the `catch` of
lines 81–88, producing the degraded record with `name` set to the
original (non-normalized) `repoFullName`.  The second component is the
list of upstream requests issued before resolving. -/
def getRepoInfo (w : World) (repoFullName githubToken : JsVal) :
    RepoResult × List GhRequest :=
  match normalizeJs repoFullName with
  | .error e => (.degraded repoFullName e, [])
  | .ok repoPath =>
    match w.fetch (metaRequest repoPath githubToken) with
    | .error e => (.degraded repoFullName e, [metaRequest repoPath githubToken])
    | .ok repoResponse =>
      if !repoResponse.ok then
        (.degraded repoFullName ("GitHub API error: " ++ toString repoResponse.status),
         [metaRequest repoPath githubToken])
      else
        match repoResponse.json with
        | .error e => (.degraded repoFullName e, [metaRequest repoPath githubToken])
        | .ok repoData =>
          match repoData.getProp "default_branch" with
          | .error e => (.degraded repoFullName e, [metaRequest repoPath githubToken])
          | .ok branch =>
            match w.fetch (commitsRequest repoPath githubToken branch) with
            | .error e =>
                (.degraded repoFullName e,
                 [metaRequest repoPath githubToken, commitsRequest repoPath githubToken branch])
            | .ok commitsResponse =>
              if !commitsResponse.ok then
                (.degraded repoFullName
                   ("GitHub API error fetching commits: " ++ toString commitsResponse.status),
                 [metaRequest repoPath githubToken, commitsRequest repoPath githubToken branch])
              else
                match commitsResponse.json with
                | .error e =>
                    (.degraded repoFullName e,
                     [metaRequest repoPath githubToken, commitsRequest repoPath githubToken branch])
                | .ok commits =>
                  match buildInfo repoData commits with
                  | .error e =>
                      (.degraded repoFullName e,
                       [metaRequest repoPath githubToken, commitsRequest repoPath githubToken branch])
                  | .ok info =>
                      (.info info,
                       [metaRequest repoPath githubToken, commitsRequest repoPath githubToken branch])

/-! ### The request handler `onRequest` (source lines 94–185) -/

/-- The pieces of the inbound request the handler reads: the URL path,
the method, `await request.json()` (an exception for a malformed body),
and `url.searchParams.get('repo')` (`none` models JS `null`). -/
structure InboundRequest where
  pathname : String
  method : String
  jsonBody : Except String JsVal
  repoParam : Option String

/-- The JSON body of a produced `Response`. -/
inductive ResponseBody where
  | errorMsg (msg : String) : ResponseBody
  | repoMap (entries : List (String × RepoResult)) : ResponseBody
  | single (r : RepoResult) : ResponseBody

/-- A `Response` as constructed by the handler: status (JS default 200)
and the headers the code sets. -/
structure HttpResponse where
  status : Nat := 200
  contentType : Option String := none
  cacheControl : Option String := none
  allow : Option String := none
  body : ResponseBody

/-- The handler either constructs a `Response` or passes through to
`next()` (line 184). -/
inductive HandlerResult where
  | response (r : HttpResponse) : HandlerResult
  | passthrough : HandlerResult

/-- JS object assignment `m[k] = v` on a plain object: overwrites in
place if the key exists, appends otherwise (insertion order kept). -/
def jsObjectSet {α : Type} : List (String × α) → String → α → List (String × α)
  | [], k, v => [(k, v)]
  | (k', v') :: rest, k, v =>
      if k' = k then (k', v) :: rest else (k', v') :: jsObjectSet rest k v

/-- Lines 126–133: `repos.map(repo => getRepoInfo(repo, githubToken))`,
`Promise.all`, then `repos.forEach((repo, index) => map[repo] =
results[index])`.  Keys are coerced to strings as JS property keys. -/
def buildRepoMap (w : World) (repos : List JsVal) (githubToken : JsVal) :
    List (String × RepoResult) :=
  (repos.zip (repos.map (fun repo => (getRepoInfo w repo githubToken).1))).foldl
    (fun m p => jsObjectSet m p.1.interp p.2) []

/-- The `/api/repos-info` branch (lines 100–149).  `.error` outcomes of
body parsing or of the destructuring `const { repos } = body` reach the
route's `catch` (lines 141–148) and produce the 500 response. -/
def reposInfoRoute (w : World) (req : InboundRequest) (githubToken : JsVal) : HttpResponse :=
  if req.method != "POST" then
    { status := 405, contentType := some "application/json", allow := some "POST",
      body := .errorMsg "Method not allowed. Use POST." }
  else
    match req.jsonBody with
    | .error e => { status := 500, contentType := some "application/json", body := .errorMsg e }
    | .ok body =>
      match body.getProp "repos" with
      | .error e => { status := 500, contentType := some "application/json", body := .errorMsg e }
      | .ok repos =>
        if !repos.truthy || !repos.isArray then
          { status := 400, contentType := some "application/json",
            body := .errorMsg "Invalid request. Provide an array of repo URLs." }
        else
          { status := 200, contentType := some "application/json",
            cacheControl := some CACHE_CONTROL,
            body := .repoMap (buildRepoMap w repos.arrElems githubToken) }

/-- The `/api/repo-info` branch (lines 152–181).  Note line 165 calls
`getRepoInfo(repoUrl)` with the token argument missing, i.e.
`undefined`; `if (!repoUrl)` is JS falsiness, so an empty-string
parameter also takes the 400 branch. -/
def repoInfoRoute (w : World) (req : InboundRequest) : HttpResponse :=
  match req.repoParam with
  | none =>
      { status := 400, contentType := some "application/json",
        body := .errorMsg "Missing repo parameter" }
  | some repoUrl =>
      if repoUrl = "" then
        { status := 400, contentType := some "application/json",
          body := .errorMsg "Missing repo parameter" }
      else
        { status := 200, contentType := some "application/json",
          cacheControl := some CACHE_CONTROL,
          body := .single (getRepoInfo w (.str repoUrl) .undefined).1 }

/-- `onRequest(context)` (lines 94–185): route dispatch on the path;
`githubToken` is `env.GITHUB_TOKEN`. -/
def onRequest (w : World) (req : InboundRequest) (githubToken : JsVal) : HandlerResult :=
  if req.pathname = "/api/repos-info" then
    .response (reposInfoRoute w req githubToken)
  else if req.pathname = "/api/repo-info" then
    .response (repoInfoRoute w req)
  else
    .passthrough

/-! ### Concrete fixtures used to witness the theorems -/

/-- A sample owner object, as in a GitHub metadata response. -/
def sampleOwnerObj : JsVal :=
  .obj [("login", .str "a"), ("avatar_url", .str "av"), ("html_url", .str "ou")]

/-- A sample parsed repository-metadata JSON body. -/
def sampleRepoData : JsVal :=
  .obj [("name", .str "b"), ("full_name", .str "a/b"), ("description", .null),
        ("html_url", .str "u"), ("stargazers_count", .num 1), ("forks_count", .num 2),
        ("updated_at", .str "2020-01-01"), ("default_branch", .str "main"),
        ("owner", sampleOwnerObj)]

/-- A sample commit entry, as in a GitHub commits response. -/
def sampleCommit : JsVal :=
  .obj [("commit", .obj [("committer", .obj [("date", .str "2021-02-02")]),
                         ("message", .str "m")]),
        ("html_url", .str "cu")]

/-- A successful metadata response carrying `sampleRepoData`. -/
def sampleMetaResponse : GhResponse := ⟨true, 200, .ok sampleRepoData⟩

/-- A successful commits response with one commit. -/
def sampleCommitsResponse : GhResponse := ⟨true, 200, .ok (.arr [sampleCommit])⟩

/-- A successful commits response with an empty commit array. -/
def sampleEmptyCommitsResponse : GhResponse := ⟨true, 200, .ok (.arr [])⟩

/-- A network where both calls for `a/b` succeed and the commit list is
nonempty. -/
def sampleWorld : World :=
  ⟨fun req => if req = metaRequest (normalizeRepoPath "a/b") JsVal.undefined
              then .ok sampleMetaResponse else .ok sampleCommitsResponse⟩

/-- A network where both calls for `a/b` succeed and the commit list is
empty. -/
def sampleWorldEmpty : World :=
  ⟨fun req => if req = metaRequest (normalizeRepoPath "a/b") JsVal.undefined
              then .ok sampleMetaResponse else .ok sampleEmptyCommitsResponse⟩

/-- The record `getRepoInfo` assembles under `sampleWorld`. -/
def sampleInfo : RepoInfo :=
  { name := .str "b", full_name := .str "a/b", description := .null, url := .str "u",
    stars := .num 1, forks := .num 2, last_updated := .str "2021-02-02",
    last_commit_message := .str "m", last_commit_url := .str "cu",
    owner := { login := .str "a", avatar_url := .str "av", url := .str "ou" } }

/-- The record `getRepoInfo` assembles under `sampleWorldEmpty`:
`last_updated` falls back to the metadata timestamp and the commit
fields are empty strings. -/
def sampleInfoEmpty : RepoInfo :=
  { name := .str "b", full_name := .str "a/b", description := .null, url := .str "u",
    stars := .num 1, forks := .num 2, last_updated := .str "2020-01-01",
    last_commit_message := .str "", last_commit_url := .str "",
    owner := { login := .str "a", avatar_url := .str "av", url := .str "ou" } }

/-! ### Lemmas about the string-matching primitives -/

theorem isPre_iff (p l : List Char) : isPre p l = true ↔ p <+: l := by
  induction p generalizing l with
  | nil => simp [isPre]
  | cons a as ih =>
    cases l with
    | nil => simp [isPre]
    | cons b bs =>
      simp only [isPre, Bool.and_eq_true, beq_iff_eq, ih, List.cons_prefix_cons]

theorem isSuf_iff (p l : List Char) : isSuf p l = true ↔ p <:+ l := by
  rw [isSuf, isPre_iff, List.reverse_prefix]

theorem infixOf_iff (p l : List Char) : infixOf p l = true ↔ p <:+: l := by
  induction l with
  | nil => simp [infixOf, isPre_iff]
  | cons c rest ih =>
    rw [infixOf, Bool.or_eq_true, isPre_iff, ih, List.infix_cons_iff]

theorem isPre_append_self (p r : List Char) : isPre p (p ++ r) = true :=
  (isPre_iff p (p ++ r)).mpr (List.prefix_append p r)

theorem infixOf_of_parts (p x y l : List Char) (h : x ++ (p ++ y) = l) :
    infixOf p l = true :=
  (infixOf_iff p l).mpr ⟨x, y, by rw [← h]; simp⟩

theorem infixOf_false_of_count (p l : List Char) (c : Char)
    (h : l.count c < p.count c) : infixOf p l = false := by
  rw [Bool.eq_false_iff]
  intro hc
  exact absurd ((((infixOf_iff p l).mp hc).sublist).count_le c) (Nat.not_le_of_lt h)

theorem stripSuffixOnce_append (p x : List Char) :
    stripSuffixOnce p (x ++ p) = x := by
  rw [stripSuffixOnce, if_pos ((isSuf_iff p (x ++ p)).mpr (List.suffix_append x p))]
  rw [List.reverse_append, ← List.length_reverse p, List.drop_left, List.reverse_reverse]

theorem stripSuffixOnce_of_neg (p l : List Char) (h : isSuf p l = false) :
    stripSuffixOnce p l = l := by
  rw [stripSuffixOnce, if_neg]
  rw [h]
  exact Bool.false_ne_true

theorem suffix_past_slash (p x y : List Char) (hp : '/' ∉ p)
    (h : isSuf p (x ++ '/' :: y) = true) : isSuf p y = true := by
  rw [isSuf_iff] at h ⊢
  rcases List.suffix_or_suffix_of_suffix h (List.suffix_append x ('/' :: y)) with h2 | h2
  · rcases List.suffix_cons_iff.mp h2 with h3 | h3
    · exact absurd (h3 ▸ List.mem_cons_self '/' y) hp
    · exact h3
  · exact absurd (h2.mem (List.mem_cons_self '/' y)) hp

theorem isPre_single (c : Char) (m : List Char) :
    isPre [c] m = true ↔ m.head? = some c := by
  cases m with
  | nil => simp [isPre]
  | cons d ds =>
    show (c == d && isPre [] ds) = true ↔ _
    rw [show isPre [] ds = true from rfl]
    simp only [Bool.and_true, beq_iff_eq, List.head?_cons, Option.some.injEq]
    exact eq_comm

theorem isSuf_singleton (c : Char) (l : List Char) :
    isSuf [c] l = true ↔ l.getLast? = some c := by
  rw [isSuf, show ([c].reverse : List Char) = [c] from rfl, isPre_single,
    List.head?_reverse]

theorem getLast?_of_suffix (p l : List Char) (hp : p ≠ []) (h : p <:+ l) :
    l.getLast? = p.getLast? := by
  obtain ⟨t, rfl⟩ := h
  exact List.getLast?_append_of_ne_nil t hp

theorem isSuf_false_of_getLast (p l : List Char) (a b : Char)
    (hp : p.getLast? = some a) (hl : l.getLast? = some b) (hab : a ≠ b) :
    isSuf p l = false := by
  rw [Bool.eq_false_iff]
  intro h
  have hpn : p ≠ [] := by
    intro he
    rw [he] at hp
    exact Option.noConfusion hp
  have := getLast?_of_suffix p l hpn ((isSuf_iff p l).mp h)
  rw [hl, hp] at this
  exact hab (Option.some.injEq _ _ ▸ this.symm)

theorem not_slash_suffix (x n : List Char) (hn : n ≠ []) (h : '/' ∉ n) :
    isSuf ['/'] (x ++ n) = false := by
  rw [Bool.eq_false_iff]
  intro hc
  have h1 : (x ++ n).getLast? = some '/' := (isSuf_singleton '/' (x ++ n)).mp hc
  rw [List.getLast?_append_of_ne_nil x hn,
    List.getLast?_eq_getLast_of_ne_nil hn] at h1
  have := List.getLast_mem hn
  rw [Option.some.injEq] at h1
  rw [h1] at this
  exact h this

/-! ### Lemmas about the host-stripping and split steps -/

theorem stripHostFirst_cons (c : Char) (rest : List Char) :
    stripHostFirst (c :: rest) =
      if isPre httpsHostPat (c :: rest) then (c :: rest).drop httpsHostPat.length
      else if isPre httpHostPat (c :: rest) then (c :: rest).drop httpHostPat.length
      else c :: stripHostFirst rest := rfl

theorem stripHostFirst_https (r : List Char) :
    stripHostFirst (httpsHostPat ++ r) = r := by
  have h : httpsHostPat ++ r = 'h' :: ("ttps://github.com/".data ++ r) := rfl
  rw [h, stripHostFirst_cons, ← h, if_pos (isPre_append_self httpsHostPat r),
    List.drop_left]

theorem stripHostFirst_of_absent (l : List Char)
    (h1 : infixOf httpsHostPat l = false) (h2 : infixOf httpHostPat l = false) :
    stripHostFirst l = l := by
  induction l with
  | nil => rfl
  | cons c rest ih =>
    rw [infixOf, Bool.or_eq_false_iff] at h1 h2
    rw [stripHostFirst_cons, if_neg, if_neg, ih h1.2 h2.2]
    · rw [h2.1]; exact Bool.false_ne_true
    · rw [h1.1]; exact Bool.false_ne_true

theorem indexOf_append_not_mem (c : Char) (x r : List Char) (h : c ∉ x) :
    (x ++ c :: r).indexOf c = x.length := by
  induction x with
  | nil => simp [List.indexOf_cons]
  | cons a x' ih =>
    have ha : a ≠ c := fun he => h (he ▸ List.mem_cons_self a x')
    rw [List.cons_append, List.indexOf_cons, show (a == c) = false from beq_eq_false_iff_ne.mpr ha]
    simp only [cond_false, List.length_cons]
    rw [ih (fun hm => h (List.mem_cons_of_mem a hm))]

theorem indexOf_eq_of_pre (c : Char) (p l : List Char) (hp : p <+: l)
    (hm : c ∈ p) : l.indexOf c = p.indexOf c := by
  induction p generalizing l with
  | nil => exact absurd hm (List.not_mem_nil c)
  | cons a p' ih =>
    obtain ⟨t, rfl⟩ := hp
    rw [List.cons_append, List.indexOf_cons, List.indexOf_cons]
    cases hab : a == c with
    | true => rfl
    | false =>
      simp only [cond_false]
      have hm' : c ∈ p' := by
        rcases List.mem_cons.mp hm with h | h
        · exact absurd (h ▸ hab) (by simp)
        · exact h
      rw [ih (p' ++ t) (List.prefix_append p' t) hm']

theorem no_tree_match (n : List Char) (h1 : '/' ∉ n) (h2 : n ≠ [])
    (h3 : n ≠ "tree".data) (r : List Char) :
    isPre "tree/".data (n ++ '/' :: r) = false := by
  rw [Bool.eq_false_iff]
  intro hc
  have hpre : "tree/".data <+: (n ++ '/' :: r) := (isPre_iff _ _).mp hc
  have hidx : (n ++ '/' :: r).indexOf '/' = 4 := by
    rw [indexOf_eq_of_pre '/' _ _ hpre (by decide)]
    decide
  have hlen : n.length = 4 := by
    rw [indexOf_append_not_mem '/' n r h1] at hidx
    exact hidx
  have htake : "tree/".data = (n ++ '/' :: r).take 5 := by
    have := List.prefix_iff_eq_take.mp hpre
    exact this
  have hn4 : n = (n ++ '/' :: r).take 4 := by
    conv_lhs => rw [← List.take_left n ('/' :: r), hlen]
  have : n = "tree".data := by
    rw [hn4, show (4 : Nat) = min 4 5 from rfl, ← List.take_take, ← htake]
    rfl
  exact h3 this

theorem beforeFirst_cons (p : List Char) (c : Char) (rest : List Char) :
    beforeFirst p (c :: rest) =
      if isPre p (c :: rest) then [] else c :: beforeFirst p rest := rfl

theorem beforeFirst_append_avoid (hc : Char) (p : List Char)
    (hp : p.head? = some hc) (x : List Char) (hx : hc ∉ x) (rest : List Char) :
    beforeFirst p (x ++ rest) = x ++ beforeFirst p rest := by
  induction x with
  | nil => rfl
  | cons a x' ih =>
    have ha : a ≠ hc := fun he => hx (he ▸ List.mem_cons_self a x')
    cases p with
    | nil => exact absurd hp (by simp)
    | cons q qs =>
      have hq : q = hc := by
        rw [List.head?_cons, Option.some.injEq] at hp
        exact hp
      rw [List.cons_append, beforeFirst_cons, if_neg,
        ih (fun hm => hx (List.mem_cons_of_mem a hm)), List.cons_append]
      intro hpp
      have := (List.cons_prefix_cons.mp ((isPre_iff _ _).mp hpp)).1
      exact ha (this.symm.trans hq)

theorem beforeFirst_self (p r : List Char) (hp : p ≠ []) :
    beforeFirst p (p ++ r) = [] := by
  cases p with
  | nil => exact absurd rfl hp
  | cons q qs =>
    rw [List.cons_append, beforeFirst_cons, if_pos]
    exact isPre_append_self (q :: qs) r

/-! ### Behaviour of the normalization pipeline on `owner/name` segments -/

theorem count_slash_seg (o n : List Char) (ho : '/' ∉ o) (hn : '/' ∉ n) :
    (o ++ '/' :: n).count '/' = 1 := by
  rw [List.count_append, List.count_cons_self,
    List.count_eq_zero.mpr ho, List.count_eq_zero.mpr hn]

theorem seg_no_git_suffix (o n : List Char) (hgit : isSuf dotGitPat n = false) :
    isSuf dotGitPat (o ++ '/' :: n) = false := by
  rw [Bool.eq_false_iff]
  intro hc
  have := suffix_past_slash dotGitPat o n (by decide) hc
  rw [hgit] at this
  exact Bool.false_ne_true this

theorem seg_no_tree_pat (o n : List Char) (ho : '/' ∉ o) (hn : '/' ∉ n) :
    infixOf treePat (o ++ '/' :: n) = false := by
  apply infixOf_false_of_count _ _ '/'
  rw [count_slash_seg o n ho hn]
  decide

/-- Steps 2–4 leave a clean `owner/name` segment unchanged. -/
theorem steps234_seg (o n : List Char) (ho : '/' ∉ o) (hn : '/' ∉ n)
    (hne : n ≠ []) (hgit : isSuf dotGitPat n = false) :
    normStep4 (normStep3 (normStep2 (o ++ '/' :: n))) = o ++ '/' :: n := by
  rw [normStep2, stripSuffixOnce_of_neg _ _ (seg_no_git_suffix o n hgit)]
  rw [normStep3, show o ++ '/' :: n = (o ++ ['/']) ++ n by simp,
    stripSuffixOnce_of_neg _ _ (not_slash_suffix (o ++ ['/']) n hne hn)]
  rw [normStep4, if_neg]
  rw [show (o ++ ['/']) ++ n = o ++ '/' :: n by simp,
    seg_no_tree_pat o n ho hn]
  exact Bool.false_ne_true

/-- Step 1 on a string that starts with `https://github.com/`. -/
theorem step1_https (r : List Char) :
    normStep1 (httpsHostPat ++ r) = r := by
  rw [normStep1, if_pos, stripHostFirst_https]
  exact infixOf_of_parts ghHostPat "https://".data r _ rfl

/-- Step 1 on a string that starts with `http://github.com/`. -/
theorem step1_http (r : List Char) :
    normStep1 (httpHostPat ++ r) = r := by
  rw [normStep1, if_pos]
  · have h : httpHostPat ++ r = 'h' :: ("ttp://github.com/".data ++ r) := rfl
    rw [h, stripHostFirst_cons, ← h, if_neg, if_pos (isPre_append_self httpHostPat r),
      List.drop_left]
    intro hc
    have h1 := List.prefix_iff_eq_take.mp ((isPre_iff _ _).mp hc)
    have h2 : httpsHostPat.get? 4 = ((httpHostPat ++ r).take httpsHostPat.length).get? 4 := by
      rw [← h1]
    rw [List.get?_take (by decide), List.get?_append (by decide)] at h2
    exact absurd h2 (by decide)
  · exact infixOf_of_parts ghHostPat "http://".data r _ rfl

/-- Step 1 leaves a string with no scheme-qualified host occurrence
unchanged even when the `github.com/` guard fires, because the regex of
line 24 requires `http://` or `https://` before `github.com/`. -/
theorem step1_no_scheme (l : List Char) (hcount : l.count '/' < 3) :
    normStep1 l = l := by
  rw [normStep1]
  split
  · exact stripHostFirst_of_absent l
      (infixOf_false_of_count _ _ '/' (by simpa using hcount))
      (infixOf_false_of_count _ _ '/' (by simpa using hcount))
  · rfl

/-! ### The `/tree/<branch>` form -/

theorem treePat_split : treePat = "/tree".data ++ ['/'] := rfl

theorem treePat_cons : treePat = '/' :: "tree/".data := rfl

/-- Step 3 on `P ++ "/tree/" ++ u` (`u` nonempty) can only shorten `u`. -/
theorem step3_keeps_tree (P u : List Char) (hu : u ≠ []) :
    ∃ v, normStep3 (P ++ treePat ++ u) = P ++ treePat ++ v := by
  by_cases hs : isSuf ['/'] u = true
  · obtain ⟨t2, ht2⟩ := (isSuf_iff _ _).mp hs
    refine ⟨t2, ?_⟩
    rw [normStep3, ← ht2, ← List.append_assoc, stripSuffixOnce_append]
  · refine ⟨u, ?_⟩
    rw [normStep3]
    apply stripSuffixOnce_of_neg
    rw [Bool.eq_false_iff]
    intro hc
    have h1 := (isSuf_singleton '/' _).mp hc
    rw [show P ++ treePat ++ u = (P ++ treePat) ++ u by simp,
      List.getLast?_append_of_ne_nil _ hu] at h1
    exact (Bool.eq_false_iff.mp (Bool.not_eq_true _ ▸ hs)) ((isSuf_singleton '/' u).mpr h1)

/-- Steps 2 and 3 on `P ++ "/tree/" ++ b` (`b` a nonempty branch other
than the literal `.git`) keep the `P ++ "/tree/"` prefix intact. -/
theorem steps23_keep_tree (P b : List Char) (hb : b ≠ []) (hbg : b ≠ dotGitPat) :
    ∃ v, normStep3 (normStep2 (P ++ treePat ++ b)) = P ++ treePat ++ v := by
  by_cases hg : isSuf dotGitPat b = true
  · obtain ⟨t, ht⟩ := (isSuf_iff _ _).mp hg
    have htne : t ≠ [] := by
      intro he
      rw [he, List.nil_append] at ht
      exact hbg ht.symm
    have h2 : normStep2 (P ++ treePat ++ b) = P ++ treePat ++ t := by
      rw [normStep2, ← ht, show P ++ treePat ++ (t ++ dotGitPat) = (P ++ treePat ++ t) ++ dotGitPat by simp,
        stripSuffixOnce_append]
    rw [h2]
    exact step3_keeps_tree P t htne
  · have h2 : normStep2 (P ++ treePat ++ b) = P ++ treePat ++ b := by
      rw [normStep2]
      apply stripSuffixOnce_of_neg
      rw [Bool.eq_false_iff]
      intro hc
      rw [show P ++ treePat ++ b = (P ++ "/tree".data) ++ '/' :: b by
        rw [treePat_split]; simp] at hc
      have := suffix_past_slash dotGitPat _ _ (by decide) hc
      exact (Bool.eq_false_iff.mp (Bool.not_eq_true _ ▸ hg)) this
    rw [h2]
    exact step3_keeps_tree P b hb

/-- Step 4 on `owner/name/tree/<anything>` keeps exactly `owner/name`. -/
theorem step4_tree (o n v : List Char) (ho : '/' ∉ o) (hn : '/' ∉ n)
    (hne : n ≠ []) (hntree : n ≠ "tree".data) :
    normStep4 (o ++ ('/' :: (n ++ (treePat ++ v)))) = o ++ '/' :: n := by
  have hpre : isPre treePat ('/' :: (n ++ (treePat ++ v))) = false := by
    show (('/' : Char) == '/' && isPre "tree/".data (n ++ (treePat ++ v))) = false
    simp only [beq_self_eq_true, Bool.true_and]
    rw [show n ++ (treePat ++ v) = n ++ '/' :: ("tree/".data ++ v) from by
      rw [treePat_cons]; simp]
    exact no_tree_match n hn hne hntree _
  rw [normStep4, if_pos]
  · rw [beforeFirst_append_avoid '/' treePat rfl o ho,
      beforeFirst_cons, if_neg (by rw [hpre]; exact Bool.false_ne_true),
      beforeFirst_append_avoid '/' treePat rfl n hn,
      beforeFirst_self treePat v (by decide), List.append_nil]
  · exact infixOf_of_parts treePat (o ++ '/' :: n) v _ (by simp)

/-! ### Full-pipeline results on the four URL forms -/

theorem step4_seg (o n : List Char) (ho : '/' ∉ o) (hn : '/' ∉ n) :
    normStep4 (o ++ '/' :: n) = o ++ '/' :: n := by
  rw [normStep4, if_neg]
  rw [seg_no_tree_pat o n ho hn]
  exact Bool.false_ne_true

theorem steps34_seg (o n : List Char) (ho : '/' ∉ o) (hn : '/' ∉ n) (hne : n ≠ []) :
    normStep4 (normStep3 (o ++ '/' :: n)) = o ++ '/' :: n := by
  rw [normStep3, show o ++ '/' :: n = (o ++ ['/']) ++ n by simp,
    stripSuffixOnce_of_neg _ _ (not_slash_suffix (o ++ ['/']) n hne hn),
    show (o ++ ['/']) ++ n = o ++ '/' :: n by simp]
  exact step4_seg o n ho hn

theorem normList_form1 (o n : List Char) (ho : '/' ∉ o) (hn : '/' ∉ n)
    (hne : n ≠ []) (hgit : isSuf dotGitPat n = false) :
    normStep4 (normStep3 (normStep2 (normStep1 (httpsHostPat ++ (o ++ '/' :: n))))) =
      o ++ '/' :: n := by
  rw [step1_https, steps234_seg o n ho hn hne hgit]

theorem normList_form2 (o n : List Char) (ho : '/' ∉ o) (hn : '/' ∉ n) (hne : n ≠ []) :
    normStep4 (normStep3 (normStep2 (normStep1 (httpsHostPat ++ ((o ++ '/' :: n) ++ dotGitPat))))) =
      o ++ '/' :: n := by
  rw [step1_https, normStep2, stripSuffixOnce_append]
  exact steps34_seg o n ho hn hne

theorem normList_form3 (o n : List Char) (ho : '/' ∉ o) (hn : '/' ∉ n) (hne : n ≠ []) :
    normStep4 (normStep3 (normStep2 (normStep1 (httpsHostPat ++ ((o ++ '/' :: n) ++ ['/']))))) =
      o ++ '/' :: n := by
  rw [step1_https, normStep2,
    stripSuffixOnce_of_neg _ _ (isSuf_false_of_getLast dotGitPat _ 't' '/' (by decide)
      (by rw [List.getLast?_append_of_ne_nil _ (by decide)]; rfl) (by decide)),
    normStep3, stripSuffixOnce_append]
  exact step4_seg o n ho hn

theorem normList_form4 (o n b : List Char) (ho : '/' ∉ o) (hn : '/' ∉ n)
    (hne : n ≠ []) (hntree : n ≠ "tree".data)
    (hb : b ≠ []) (hbg : b ≠ dotGitPat) :
    normStep4 (normStep3 (normStep2 (normStep1 (httpsHostPat ++ (((o ++ '/' :: n) ++ treePat) ++ b))))) =
      o ++ '/' :: n := by
  rw [step1_https]
  obtain ⟨v, hv⟩ := steps23_keep_tree (o ++ '/' :: n) b hb hbg
  rw [hv, show ((o ++ '/' :: n) ++ treePat) ++ v = o ++ ('/' :: (n ++ (treePat ++ v))) by simp]
  exact step4_tree o n v ho hn hne hntree

/-! ### String-level data conversions for the URL forms -/

theorem data_seg (o n : String) :
    (o ++ "/" ++ n).data = o.data ++ '/' :: n.data := by
  simp only [String.data_append, show (("/" : String).data : List Char) = ['/'] from rfl,
    List.append_assoc, List.singleton_append]

theorem data_form1 (o n : String) :
    ("https://github.com/" ++ o ++ "/" ++ n).data =
      httpsHostPat ++ (o.data ++ '/' :: n.data) := by
  simp only [String.data_append, show ("https://github.com/" : String).data = httpsHostPat from rfl,
    show (("/" : String).data : List Char) = ['/'] from rfl,
    List.append_assoc, List.singleton_append]
  rfl

theorem data_form2 (o n : String) :
    ("https://github.com/" ++ o ++ "/" ++ n ++ ".git").data =
      httpsHostPat ++ ((o.data ++ '/' :: n.data) ++ dotGitPat) := by
  simp only [String.data_append, show ("https://github.com/" : String).data = httpsHostPat from rfl,
    show (("/" : String).data : List Char) = ['/'] from rfl,
    show ((".git" : String).data : List Char) = dotGitPat from rfl,
    List.append_assoc, List.singleton_append]
  rfl

theorem data_form3 (o n : String) :
    ("https://github.com/" ++ o ++ "/" ++ n ++ "/").data =
      httpsHostPat ++ ((o.data ++ '/' :: n.data) ++ ['/']) := by
  simp only [String.data_append, show ("https://github.com/" : String).data = httpsHostPat from rfl,
    show (("/" : String).data : List Char) = ['/'] from rfl,
    List.append_assoc, List.singleton_append]
  rfl

theorem data_form4 (o n b : String) :
    ("https://github.com/" ++ o ++ "/" ++ n ++ "/tree/" ++ b).data =
      httpsHostPat ++ (((o.data ++ '/' :: n.data) ++ treePat) ++ b.data) := by
  simp only [String.data_append, show ("https://github.com/" : String).data = httpsHostPat from rfl,
    show (("/" : String).data : List Char) = ['/'] from rfl,
    show (("/tree/" : String).data : List Char) = treePat from rfl,
    List.append_assoc, List.singleton_append]
  rfl

theorem data_scheme_less (o n : String) :
    ("github.com/" ++ o ++ "/" ++ n).data = ghHostPat ++ (o.data ++ '/' :: n.data) := by
  simp only [String.data_append, show ("github.com/" : String).data = ghHostPat from rfl,
    show (("/" : String).data : List Char) = ['/'] from rfl,
    List.append_assoc, List.singleton_append]
  rfl

theorem normalizeRepoPath_data (s : String) :
    (normalizeRepoPath s).data = normStep4 (normStep3 (normStep2 (normStep1 s.data))) := rfl

theorem normalizeStep1_data (s : String) :
    (normalizeStep1 s).data = normStep1 s.data := rfl

/-! ### Claims about the Normalizer (C3, C8, C9) -/

/-- C3, counterexample: the claim quantifies over every OWNER and NAME,
but for NAME = `tree` the `/tree/BRANCH` form collapses to just the
owner, because `split('/tree/')[0]` cuts at the first occurrence of
`/tree/`, which here is the repository name itself. -/
theorem c3_counterexample :
    normalizeRepoPath "https://github.com/foo/tree/tree/main" = "foo" ∧
    normalizeRepoPath "https://github.com/foo/tree/tree/main" ≠ "foo/tree" := by
  decide

/-- C3, amended: for every OWNER, NAME and BRANCH that are plausible
path segments — OWNER and NAME contain no `/`, NAME is nonempty, does
not end in `.git`, and is not the literal `tree`; BRANCH is nonempty
and not the literal `.git` — the Normalizer maps each of
`https://github.com/OWNER/NAME`, `…/NAME.git`, `…/NAME/` and
`…/NAME/tree/BRANCH` to exactly `OWNER/NAME`. -/
theorem c3_amended (owner name branch : String)
    (ho : '/' ∉ owner.data) (hn : '/' ∉ name.data) (hne : name ≠ "")
    (hgit : isSuf dotGitPat name.data = false) (hntree : name ≠ "tree")
    (hbne : branch ≠ "") (hbgit : branch ≠ ".git") :
    normalizeRepoPath ("https://github.com/" ++ owner ++ "/" ++ name) = owner ++ "/" ++ name ∧
    normalizeRepoPath ("https://github.com/" ++ owner ++ "/" ++ name ++ ".git") = owner ++ "/" ++ name ∧
    normalizeRepoPath ("https://github.com/" ++ owner ++ "/" ++ name ++ "/") = owner ++ "/" ++ name ∧
    normalizeRepoPath ("https://github.com/" ++ owner ++ "/" ++ name ++ "/tree/" ++ branch) =
      owner ++ "/" ++ name := by
  have hne' : name.data ≠ [] := fun h => hne (String.ext h)
  have hntree' : name.data ≠ "tree".data := fun h => hntree (String.ext h)
  have hbne' : branch.data ≠ [] := fun h => hbne (String.ext h)
  have hbgit' : branch.data ≠ dotGitPat := fun h => hbgit (String.ext h)
  refine ⟨?_, ?_, ?_, ?_⟩
  · apply String.ext
    rw [normalizeRepoPath_data, data_form1,
      normList_form1 owner.data name.data ho hn hne' hgit, data_seg]
  · apply String.ext
    rw [normalizeRepoPath_data, data_form2,
      normList_form2 owner.data name.data ho hn hne', data_seg]
  · apply String.ext
    rw [normalizeRepoPath_data, data_form3,
      normList_form3 owner.data name.data ho hn hne', data_seg]
  · apply String.ext
    rw [normalizeRepoPath_data, data_form4,
      normList_form4 owner.data name.data branch.data ho hn hne' hntree' hbne' hbgit',
      data_seg]

/-- C3, witness: the amended statement evaluated at OWNER = `foo`,
NAME = `bar`, BRANCH = `main`. -/
theorem c3_amended_witness :
    normalizeRepoPath ("https://github.com/" ++ "foo" ++ "/" ++ "bar") = "foo" ++ "/" ++ "bar" ∧
    normalizeRepoPath ("https://github.com/" ++ "foo" ++ "/" ++ "bar" ++ ".git") = "foo" ++ "/" ++ "bar" ∧
    normalizeRepoPath ("https://github.com/" ++ "foo" ++ "/" ++ "bar" ++ "/") = "foo" ++ "/" ++ "bar" ∧
    normalizeRepoPath ("https://github.com/" ++ "foo" ++ "/" ++ "bar" ++ "/tree/" ++ "main") =
      "foo" ++ "/" ++ "bar" :=
  c3_amended "foo" "bar" "main" (by decide) (by decide) (by decide) (by decide) (by decide)
    (by decide) (by decide)

/-- C8, counterexample: the full normalization is not idempotent — each
application of `.replace(/\.git$/, '')` strips only one `.git` layer,
so `a/b.git.git` normalizes to `a/b.git`, which normalizes again to
`a/b`. -/
theorem c8_counterexample :
    normalizeRepoPath (normalizeRepoPath "a/b.git.git") ≠ normalizeRepoPath "a/b.git.git" := by
  decide

/-- C8, amended: for an input already of the form `OWNER/NAME` (both
segments slash-free, NAME nonempty and not ending in `.git`) the output
is that string unchanged, and each individual transformation step is a
no-op when its pattern is absent; full normalization is however not
idempotent in general (see the counterexample: an output may itself
still end in `.git` and be stripped again). -/
theorem c8_amended (owner name : String) (ho : '/' ∉ owner.data) (hn : '/' ∉ name.data)
    (hne : name ≠ "") (hgit : isSuf dotGitPat name.data = false) :
    normalizeRepoPath (owner ++ "/" ++ name) = owner ++ "/" ++ name ∧
    (∀ l : List Char, infixOf ghHostPat l = false → normStep1 l = l) ∧
    (∀ l : List Char, isSuf dotGitPat l = false → normStep2 l = l) ∧
    (∀ l : List Char, isSuf ['/'] l = false → normStep3 l = l) ∧
    (∀ l : List Char, infixOf treePat l = false → normStep4 l = l) := by
  have hne' : name.data ≠ [] := fun h => hne (String.ext h)
  refine ⟨?_, ?_, ?_, ?_, ?_⟩
  · apply String.ext
    rw [normalizeRepoPath_data, data_seg,
      step1_no_scheme _ (by rw [count_slash_seg owner.data name.data ho hn]; decide),
      steps234_seg owner.data name.data ho hn hne' hgit]
  · intro l h
    rw [normStep1, if_neg]
    rw [h]
    exact Bool.false_ne_true
  · intro l h
    exact stripSuffixOnce_of_neg _ _ h
  · intro l h
    exact stripSuffixOnce_of_neg _ _ h
  · intro l h
    rw [normStep4, if_neg]
    rw [h]
    exact Bool.false_ne_true

/-- C8, witness: the amended statement's first conjunct evaluated at
`a/b`. -/
theorem c8_amended_witness :
    normalizeRepoPath ("a" ++ "/" ++ "b") = "a" ++ "/" ++ "b" :=
  (c8_amended "a" "b" (by decide) (by decide) (by decide) (by decide)).1

/-- C9, counterexample: the regex of line 24 demands an `http://` or
`https://` scheme, so the scheme-less input `github.com/a/b` passes the
`includes('github.com/')` guard but is left entirely unchanged — the
canonical path retains the `github.com/` host prefix. -/
theorem c9_counterexample :
    normalizeStep1 "github.com/a/b" = "github.com/a/b" ∧
    normalizeRepoPath "github.com/a/b" = "github.com/a/b" ∧
    ("github.com/a/b" : String) ≠ "a/b" := by
  decide

/-- C9, amended: when the input contains `github.com/`, step 1 removes
the first occurrence of `http://github.com/` or `https://github.com/`
if one is present; a scheme-less `github.com/OWNER/NAME` input is left
unchanged, host prefix included. -/
theorem c9_amended (r owner name : String) (ho : '/' ∉ owner.data) (hn : '/' ∉ name.data) :
    normalizeStep1 ("https://github.com/" ++ r) = r ∧
    normalizeStep1 ("http://github.com/" ++ r) = r ∧
    normalizeStep1 ("github.com/" ++ owner ++ "/" ++ name) =
      "github.com/" ++ owner ++ "/" ++ name := by
  refine ⟨?_, ?_, ?_⟩
  · apply String.ext
    rw [normalizeStep1_data,
      show ("https://github.com/" ++ r).data = httpsHostPat ++ r.data from by
        simp only [String.data_append]; rfl,
      step1_https]
  · apply String.ext
    rw [normalizeStep1_data,
      show ("http://github.com/" ++ r).data = httpHostPat ++ r.data from by
        simp only [String.data_append]; rfl,
      step1_http]
  · apply String.ext
    rw [normalizeStep1_data, data_scheme_less, step1_no_scheme]
    rw [List.count_append, count_slash_seg owner.data name.data ho hn,
      show ghHostPat.count '/' = 1 from by decide]
    decide

/-- C9, witness: the amended statement evaluated at `x`, `a`, `b`. -/
theorem c9_amended_witness :
    normalizeStep1 ("https://github.com/" ++ "x") = "x" ∧
    normalizeStep1 ("http://github.com/" ++ "x") = "x" ∧
    normalizeStep1 ("github.com/" ++ "a" ++ "/" ++ "b") = "github.com/" ++ "a" ++ "/" ++ "b" :=
  c9_amended "x" "a" "b" (by decide) (by decide)

/-! ### Claims about the Fetcher: totality, error shape, headers -/

/-- C1: for every reference value (in particular every reference
string) and every credential (present or absent), `getRepoInfo` always
resolves — the embedding is a total function — and its value is either
a full `RepoInfo` record or the degraded variant; in the degraded case
the `name` field is exactly the original reference as supplied, not the
canonicalized path (source line 84 uses `repoFullName`, not
`repoPath`). -/
theorem c1_fetcher_total (w : World) (ref tok : JsVal) :
    (∃ i reqs, getRepoInfo w ref tok = (RepoResult.info i, reqs)) ∨
    (∃ e reqs, getRepoInfo w ref tok = (RepoResult.degraded ref e, reqs)) := by
  unfold getRepoInfo
  repeat' split
  all_goals first
    | exact Or.inl ⟨_, _, rfl⟩
    | exact Or.inr ⟨_, _, rfl⟩

/-- C4: if the repository-metadata response has a non-success status,
`getRepoInfo` resolves to exactly the degraded record
`{name: original reference, error: "GitHub API error: <status>",
last_updated: null}`, and the request trace contains only the metadata
request — the commit-list request is never issued. -/
theorem c4_meta_error (w : World) (s : String) (tok : JsVal) (r1 : GhResponse)
    (h1 : w.fetch (metaRequest (normalizeRepoPath s) tok) = .ok r1)
    (h2 : r1.ok = false) :
    getRepoInfo w (JsVal.str s) tok =
      (RepoResult.degraded (JsVal.str s) ("GitHub API error: " ++ toString r1.status),
       [metaRequest (normalizeRepoPath s) tok]) := by
  simp only [getRepoInfo, normalizeJs, h1, h2, Bool.not_false, if_true]

/-- C4, witness: a mocked upstream returning status 404 with `ok =
false` for the reference `a/b`. -/
theorem c4_meta_error_witness :
    getRepoInfo ⟨fun _ => Except.ok ⟨false, 404, Except.error "ignored"⟩⟩
        (JsVal.str "a/b") JsVal.undefined =
      (RepoResult.degraded (JsVal.str "a/b") ("GitHub API error: " ++ toString (404 : Nat)),
       [metaRequest (normalizeRepoPath "a/b") JsVal.undefined]) :=
  c4_meta_error ⟨fun _ => Except.ok ⟨false, 404, Except.error "ignored"⟩⟩ "a/b" JsVal.undefined
    ⟨false, 404, Except.error "ignored"⟩ rfl rfl

/-- C6, counterexample: on the single-lookup route the Fetcher is
called without a credential, yet the metadata request still carries an
`Authorization` header — the template literal interpolates the missing
argument as the string `undefined`, producing `Bearer undefined` rather
than omitting the header. -/
theorem c6_counterexample :
    (getRepoInfo ⟨fun _ => Except.error "network unreachable"⟩
        (JsVal.str "a/b") JsVal.undefined).2 =
      [metaRequest (normalizeRepoPath "a/b") JsVal.undefined] ∧
    (metaRequest (normalizeRepoPath "a/b") JsVal.undefined).authorization =
      some "Bearer undefined" ∧
    (metaRequest (normalizeRepoPath "a/b") JsVal.undefined).authorization ≠ none := by
  refine ⟨rfl, rfl, fun h => Option.noConfusion h⟩

/-- Whatever else happens, the first upstream request `getRepoInfo`
issues for a string reference is the metadata request. -/
theorem getRepoInfo_first_request (w : World) (s : String) (tok : JsVal) :
    (getRepoInfo w (JsVal.str s) tok).2.head? =
      some (metaRequest (normalizeRepoPath s) tok) := by
  simp only [getRepoInfo, normalizeJs]
  repeat' split
  all_goals rfl

/-- C6, amended: every metadata request carries the fixed client-agent
string, and always carries an `Authorization` header whose value is
`Bearer` followed by the JS string conversion of the credential:
`Bearer <token>` when the credential is a string, and the literal
`Bearer undefined` when the credential is absent (as on the
single-lookup route). -/
theorem c6_amended (w : World) (s : String) (tok : JsVal) :
    (getRepoInfo w (JsVal.str s) tok).2.head? =
      some (metaRequest (normalizeRepoPath s) tok) ∧
    (metaRequest (normalizeRepoPath s) tok).userAgent = USER_AGENT ∧
    (metaRequest (normalizeRepoPath s) tok).authorization =
      some ("Bearer " ++ tok.interp) ∧
    (tok = JsVal.undefined →
      (metaRequest (normalizeRepoPath s) tok).authorization = some "Bearer undefined") ∧
    (∀ t : String, tok = JsVal.str t →
      (metaRequest (normalizeRepoPath s) tok).authorization = some ("Bearer " ++ t)) := by
  refine ⟨getRepoInfo_first_request w s tok, rfl, rfl, ?_, ?_⟩
  · intro h
    subst h
    rfl
  · intro t h
    subst h
    rfl

/-- C6, witness: the amended statement at reference `a/b` with the
credential absent, under a failing network. -/
theorem c6_amended_witness :
    (getRepoInfo ⟨fun _ => Except.error "down"⟩ (JsVal.str "a/b") JsVal.undefined).2.head? =
      some (metaRequest (normalizeRepoPath "a/b") JsVal.undefined) ∧
    (metaRequest (normalizeRepoPath "a/b") JsVal.undefined).authorization =
      some "Bearer undefined" := by
  refine ⟨(c6_amended ⟨fun _ => Except.error "down"⟩ "a/b" JsVal.undefined).1, ?_⟩
  exact (c6_amended ⟨fun _ => Except.error "down"⟩ "a/b" JsVal.undefined).2.2.2.1 rfl


/-! ### Claim C5: the assembled record -/

theorem pure_ok {α : Type} (a : α) : (pure a : Except String α) = Except.ok a := rfl

theorem exbind_ok {α β : Type} (x : Except String α) (f : α → Except String β) (b : β) :
    x >>= f = Except.ok b ↔ ∃ a, x = Except.ok a ∧ f a = Except.ok b := by
  cases x <;> simp [Bind.bind, Except.bind]

/-- When the parsed commit array is nonempty and the first commit's
committer date is truthy, the assembled record's `last_updated` is that
date (the `|| repoData.updated_at` fallback of line 72 is not taken). -/
theorem buildInfo_nonempty_last_updated (repoData c : JsVal) (cs : List JsVal) (d : JsVal)
    (hd : commitDate c = Except.ok d) (ht : d.truthy = true) (i : RepoInfo)
    (hb : buildInfo repoData (.arr (c :: cs)) = Except.ok i) :
    i.last_updated = d := by
  simp only [buildInfo, exbind_ok, pure_ok, Except.ok.injEq, exists_eq_left, exists_eq_left',
    show (JsVal.arr (c :: cs)).getIndex 0 = Except.ok c from rfl, hd, ht,
    eq_self_iff_true, if_true] at hb
  obtain ⟨nm, hnm, fl, hfl, ds, hds, u1, hu1, st, hst, fk, hfk, m1, hm1, msg, hmsg,
    curl, hcurl, ow, how, ol, hol, oa, hoa, ou, hou, hfin⟩ := hb
  subst hfin
  rfl

/-- When the parsed commit array is empty, `commits[0]` is `undefined`,
so the optional chains yield `undefined`: the commit fields default to
the empty string and `last_updated` falls back to `updated_at`. -/
theorem buildInfo_empty (repoData : JsVal) (i : RepoInfo)
    (hb : buildInfo repoData (.arr []) = Except.ok i) :
    i.last_commit_message = .str "" ∧ i.last_commit_url = .str "" ∧
    repoData.getProp "updated_at" = Except.ok i.last_updated := by
  simp only [buildInfo, exbind_ok, pure_ok, Except.ok.injEq, exists_eq_left, exists_eq_left',
    show (JsVal.arr ([] : List JsVal)).getIndex 0 = Except.ok JsVal.undefined from rfl,
    show commitDate JsVal.undefined = Except.ok JsVal.undefined from rfl,
    show JsVal.undefined.truthy = false from rfl,
    show (JsVal.undefined.optChainProp "commit") = Except.ok JsVal.undefined from rfl,
    show (JsVal.undefined.optChainProp "message") = Except.ok JsVal.undefined from rfl,
    show (JsVal.undefined.optChainProp "html_url") = Except.ok JsVal.undefined from rfl,
    Bool.false_eq_true, if_false] at hb
  obtain ⟨nm, hnm, fl, hfl, ds, hds, u1, hu1, st, hst, fk, hfk, u, hu,
    ow, how, ol, hol, oa, hoa, ou, hou, hfin⟩ := hb
  subst hfin
  exact ⟨rfl, rfl, hu⟩

/-- C5: when both upstream calls succeed, the assembled record's
`last_updated` is the first commit's committer date whenever that date
is present (truthy), not the metadata's `updated_at`; and when the
commit array is empty, `last_commit_message` and `last_commit_url` are
both the empty string and `last_updated` is exactly the metadata's
`updated_at`. -/
theorem c5_last_updated (w : World) (s : String) (tok : JsVal) (r1 : GhResponse)
    (repoData br : JsVal) (r2 : GhResponse)
    (h1 : w.fetch (metaRequest (normalizeRepoPath s) tok) = .ok r1)
    (h2 : r1.ok = true) (h3 : r1.json = .ok repoData)
    (h4 : repoData.getProp "default_branch" = .ok br)
    (h5 : w.fetch (commitsRequest (normalizeRepoPath s) tok br) = .ok r2)
    (h6 : r2.ok = true) :
    (∀ (c : JsVal) (cs : List JsVal) (d : JsVal) (i : RepoInfo) (reqs : List GhRequest),
      r2.json = .ok (.arr (c :: cs)) → commitDate c = .ok d → d.truthy = true →
      getRepoInfo w (.str s) tok = (.info i, reqs) → i.last_updated = d) ∧
    (∀ (i : RepoInfo) (reqs : List GhRequest),
      r2.json = .ok (.arr []) →
      getRepoInfo w (.str s) tok = (.info i, reqs) →
      i.last_commit_message = .str "" ∧ i.last_commit_url = .str "" ∧
      repoData.getProp "updated_at" = Except.ok i.last_updated) := by
  constructor
  · intro c cs d i reqs h7 hd ht hres
    rw [show getRepoInfo w (.str s) tok =
        (match buildInfo repoData (.arr (c :: cs)) with
         | .error e => (RepoResult.degraded (.str s) e,
             [metaRequest (normalizeRepoPath s) tok, commitsRequest (normalizeRepoPath s) tok br])
         | .ok info => (RepoResult.info info,
             [metaRequest (normalizeRepoPath s) tok, commitsRequest (normalizeRepoPath s) tok br]))
      from by
        simp only [getRepoInfo, normalizeJs, h1, h2, h3, h4, h5, h6, h7, Bool.not_true,
          Bool.false_eq_true, if_false]] at hres
    cases hbuild : buildInfo repoData (.arr (c :: cs)) with
    | error e =>
      rw [hbuild] at hres
      simp at hres
    | ok info =>
      rw [hbuild] at hres
      simp only [Prod.mk.injEq, RepoResult.info.injEq] at hres
      obtain ⟨h9, -⟩ := hres
      subst h9
      exact buildInfo_nonempty_last_updated repoData c cs d hd ht _ hbuild
  · intro i reqs h7 hres
    rw [show getRepoInfo w (.str s) tok =
        (match buildInfo repoData (.arr ([] : List JsVal)) with
         | .error e => (RepoResult.degraded (.str s) e,
             [metaRequest (normalizeRepoPath s) tok, commitsRequest (normalizeRepoPath s) tok br])
         | .ok info => (RepoResult.info info,
             [metaRequest (normalizeRepoPath s) tok, commitsRequest (normalizeRepoPath s) tok br]))
      from by
        simp only [getRepoInfo, normalizeJs, h1, h2, h3, h4, h5, h6, h7, Bool.not_true,
          Bool.false_eq_true, if_false]] at hres
    cases hbuild : buildInfo repoData (.arr ([] : List JsVal)) with
    | error e =>
      rw [hbuild] at hres
      simp at hres
    | ok info =>
      rw [hbuild] at hres
      simp only [Prod.mk.injEq, RepoResult.info.injEq] at hres
      obtain ⟨h9, -⟩ := hres
      subst h9
      exact buildInfo_empty repoData _ hbuild


/-- C5, witness: under `sampleWorld` (nonempty commit array) the
assembled record's `last_updated` is the commit date, and under
`sampleWorldEmpty` (empty commit array) the commit fields are empty and
`last_updated` is the metadata timestamp. -/
theorem c5_last_updated_witness :
    (getRepoInfo sampleWorld (JsVal.str "a/b") JsVal.undefined =
      (RepoResult.info sampleInfo,
       [metaRequest (normalizeRepoPath "a/b") JsVal.undefined,
        commitsRequest (normalizeRepoPath "a/b") JsVal.undefined (JsVal.str "main")]) ∧
     sampleInfo.last_updated = JsVal.str "2021-02-02") ∧
    (getRepoInfo sampleWorldEmpty (JsVal.str "a/b") JsVal.undefined =
      (RepoResult.info sampleInfoEmpty,
       [metaRequest (normalizeRepoPath "a/b") JsVal.undefined,
        commitsRequest (normalizeRepoPath "a/b") JsVal.undefined (JsVal.str "main")]) ∧
     sampleInfoEmpty.last_commit_message = JsVal.str "" ∧
     sampleInfoEmpty.last_commit_url = JsVal.str "" ∧
     sampleRepoData.getProp "updated_at" = Except.ok sampleInfoEmpty.last_updated) := by
  constructor
  · refine ⟨rfl, ?_⟩
    exact (c5_last_updated sampleWorld "a/b" JsVal.undefined sampleMetaResponse sampleRepoData
        (JsVal.str "main") sampleCommitsResponse rfl rfl rfl rfl rfl rfl).1
      sampleCommit [] (JsVal.str "2021-02-02") sampleInfo
      [metaRequest (normalizeRepoPath "a/b") JsVal.undefined,
       commitsRequest (normalizeRepoPath "a/b") JsVal.undefined (JsVal.str "main")]
      rfl rfl rfl rfl
  · refine ⟨rfl, ?_⟩
    exact (c5_last_updated sampleWorldEmpty "a/b" JsVal.undefined sampleMetaResponse sampleRepoData
        (JsVal.str "main") sampleEmptyCommitsResponse rfl rfl rfl rfl rfl rfl).2
      sampleInfoEmpty
      [metaRequest (normalizeRepoPath "a/b") JsVal.undefined,
       commitsRequest (normalizeRepoPath "a/b") JsVal.undefined (JsVal.str "main")]
      rfl rfl

/-! ### Claims about the request handler (C2, C7, C10) -/

theorem jsObjectSet_lookup_self {α : Type} (m : List (String × α)) (k : String) (v : α) :
    (jsObjectSet m k v).lookup k = some v := by
  induction m with
  | nil => simp [jsObjectSet, List.lookup]
  | cons p rest ih =>
    obtain ⟨q, v'⟩ := p
    by_cases h : q = k
    · subst h
      simp [jsObjectSet, List.lookup]
    · have h2 : k ≠ q := fun he => h he.symm
      simp [jsObjectSet, List.lookup, h, ih, beq_eq_false_iff_ne.mpr h2]

theorem jsObjectSet_lookup_ne {α : Type} (m : List (String × α)) (k k' : String) (v : α)
    (h : k' ≠ k) : (jsObjectSet m k v).lookup k' = m.lookup k' := by
  induction m with
  | nil => simp [jsObjectSet, List.lookup, beq_eq_false_iff_ne.mpr h]
  | cons p rest ih =>
    obtain ⟨q, v'⟩ := p
    by_cases hq : q = k
    · subst hq
      simp [jsObjectSet, List.lookup, beq_eq_false_iff_ne.mpr h]
    · simp [jsObjectSet, List.lookup, hq, ih]

theorem jsObjectSet_keys_of_mem {α : Type} (m : List (String × α)) (k : String) (v : α)
    (h : k ∈ m.map Prod.fst) :
    (jsObjectSet m k v).map Prod.fst = m.map Prod.fst := by
  induction m with
  | nil => simp at h
  | cons p rest ih =>
    obtain ⟨q, v'⟩ := p
    by_cases hq : q = k
    · subst hq
      simp [jsObjectSet]
    · simp only [List.map_cons, List.mem_cons] at h
      rcases h with h | h
    
      · exact absurd h.symm hq
      · simp [jsObjectSet, hq, ih h]

theorem jsObjectSet_keys_of_not_mem {α : Type} (m : List (String × α)) (k : String) (v : α)
    (h : k ∉ m.map Prod.fst) :
    (jsObjectSet m k v).map Prod.fst = m.map Prod.fst ++ [k] := by
  induction m with
  | nil => simp [jsObjectSet]
  | cons p rest ih =>
    obtain ⟨q, v'⟩ := p
    simp only [List.map_cons, List.mem_cons] at h
    push_neg at h
    have hq : q ≠ k := fun he => h.1 he.symm
    simp [jsObjectSet, hq, ih h.2]

theorem jsObjectSet_keys_mem_iff {α : Type} (m : List (String × α)) (k k' : String) (v : α) :
    k' ∈ (jsObjectSet m k v).map Prod.fst ↔ k' ∈ m.map Prod.fst ∨ k' = k := by
  by_cases h : k ∈ m.map Prod.fst
  · rw [jsObjectSet_keys_of_mem m k v h]
    constructor
    · exact Or.inl
    · rintro (h2 | rfl)
      · exact h2
      · exact h
  · rw [jsObjectSet_keys_of_not_mem m k v h]
    simp

theorem jsObjectSet_keys_nodup {α : Type} (m : List (String × α)) (k : String) (v : α)
    (h : (m.map Prod.fst).Nodup) : ((jsObjectSet m k v).map Prod.fst).Nodup := by
  by_cases hm : k ∈ m.map Prod.fst
  · rw [jsObjectSet_keys_of_mem m k v hm]
    exact h
  · rw [jsObjectSet_keys_of_not_mem m k v hm]
    rw [List.nodup_append]
    refine ⟨h, List.nodup_singleton k, ?_⟩
    intro x hx hx2
    simp only [List.mem_singleton] at hx2
    subst hx2
    exact hm hx

theorem foldSet_lookup_not_mem {α : Type} (F : String → α) (ks : List String)
    (m : List (String × α)) (k : String) (h : k ∉ ks) :
    (ks.foldl (fun m k => jsObjectSet m k (F k)) m).lookup k = m.lookup k := by
  induction ks generalizing m with
  | nil => rfl
  | cons k' ks ih =>
    simp only [List.mem_cons] at h
    push_neg at h
    rw [List.foldl_cons, ih _ h.2, jsObjectSet_lookup_ne _ _ _ _ h.1]

theorem foldSet_lookup_mem {α : Type} (F : String → α) (ks : List String)
    (m : List (String × α)) (k : String) (h : k ∈ ks) :
    (ks.foldl (fun m k => jsObjectSet m k (F k)) m).lookup k = some (F k) := by
  induction ks generalizing m with
  | nil => simp at h
  | cons k' ks ih =>
    rw [List.foldl_cons]
    by_cases hk : k ∈ ks
    · exact ih _ hk
    · have heq : k = k' := by
        rcases List.mem_cons.mp h with h2 | h2
        · exact h2
        · exact absurd h2 hk
      subst heq
      rw [foldSet_lookup_not_mem F ks _ k hk, jsObjectSet_lookup_self]

theorem foldSet_keys_mem_iff {α : Type} (F : String → α) (ks : List String)
    (m : List (String × α)) (k : String) :
    k ∈ ((ks.foldl (fun m k => jsObjectSet m k (F k)) m).map Prod.fst) ↔
      k ∈ m.map Prod.fst ∨ k ∈ ks := by
  induction ks generalizing m with
  | nil => simp
  | cons k' ks ih =>
    rw [List.foldl_cons, ih, jsObjectSet_keys_mem_iff]
    simp only [List.mem_cons]
    tauto

theorem foldSet_keys_nodup {α : Type} (F : String → α) (ks : List String)
    (m : List (String × α)) (h : (m.map Prod.fst).Nodup) :
    ((ks.foldl (fun m k => jsObjectSet m k (F k)) m).map Prod.fst).Nodup := by
  induction ks generalizing m with
  | nil => exact h
  | cons k' ks ih => exact ih _ (jsObjectSet_keys_nodup _ _ _ h)

theorem zip_map_foldl {α β γ : Type} (xs : List α) (f : α → β) (g : γ → α × β → γ) (init : γ) :
    (xs.zip (xs.map f)).foldl g init = xs.foldl (fun m x => g m (x, f x)) init := by
  induction xs generalizing init with
  | nil => rfl
  | cons x xs ih => simp [ih]

theorem buildRepoMap_eq (w : World) (repos : List JsVal) (tok : JsVal) :
    buildRepoMap w repos tok =
      repos.foldl (fun m repo => jsObjectSet m repo.interp (getRepoInfo w repo tok).1) [] := by
  rw [buildRepoMap, zip_map_foldl]

theorem buildRepoMap_str (w : World) (keys : List String) (tok : JsVal) :
    buildRepoMap w (keys.map JsVal.str) tok =
      keys.foldl (fun m k => jsObjectSet m k ((getRepoInfo w (.str k) tok).1)) [] := by
  rw [buildRepoMap_eq, List.foldl_map]
  rfl

/-- C2: for every POST to `/api/repos-info` whose body's `repos` field
is a list of strings, the response is a 200 with JSON content type and
the cache header, and its body is a mapping with exactly one key per
distinct input string (keyed by the string exactly as supplied,
duplicates collapsing), where each key's value is the Fetcher's result
for that string — the Fetcher is total, so a failing fetch contributes
a degraded entry rather than failing the batch. -/
theorem c2_batch (w : World) (tok : JsVal) (req : InboundRequest) (body : JsVal)
    (keys : List String)
    (hpath : req.pathname = "/api/repos-info") (hmethod : req.method = "POST")
    (hbody : req.jsonBody = .ok body)
    (hrepos : body.getProp "repos" = .ok (.arr (keys.map JsVal.str))) :
    onRequest w req tok = .response
      { status := 200, contentType := some "application/json",
        cacheControl := some CACHE_CONTROL,
        body := .repoMap (buildRepoMap w (keys.map JsVal.str) tok) } ∧
    ((buildRepoMap w (keys.map JsVal.str) tok).map Prod.fst).Nodup ∧
    (∀ k : String, k ∈ (buildRepoMap w (keys.map JsVal.str) tok).map Prod.fst ↔ k ∈ keys) ∧
    (∀ k : String, k ∈ keys →
      (buildRepoMap w (keys.map JsVal.str) tok).lookup k =
        some (getRepoInfo w (.str k) tok).1) := by
  refine ⟨?_, ?_, ?_, ?_⟩
  · simp only [onRequest, hpath, reposInfoRoute, hmethod, hbody, hrepos,
      JsVal.truthy, JsVal.isArray, JsVal.arrElems, Bool.not_true, Bool.or_self,
      Bool.false_eq_true, if_false, if_true, bne_self_eq_false, reduceIte]
  · rw [buildRepoMap_str]
    exact foldSet_keys_nodup _ keys [] List.nodup_nil
  · intro k
    rw [buildRepoMap_str, foldSet_keys_mem_iff]
    simp
  · intro k hk
    rw [buildRepoMap_str]
    exact foldSet_lookup_mem _ keys [] k hk

theorem repoInfoRoute_none (w : World) (req : InboundRequest)
    (h : req.repoParam = none) :
    repoInfoRoute w req =
      { status := 400, contentType := some "application/json",
        body := .errorMsg "Missing repo parameter" } := by
  rw [repoInfoRoute, h]

theorem repoInfoRoute_empty (w : World) (req : InboundRequest)
    (h : req.repoParam = some "") :
    repoInfoRoute w req =
      { status := 400, contentType := some "application/json",
        body := .errorMsg "Missing repo parameter" } := by
  rw [repoInfoRoute, h]
  exact if_pos rfl

theorem repoInfoRoute_some (w : World) (req : InboundRequest) (u : String)
    (h : req.repoParam = some u) (hu : u ≠ "") :
    repoInfoRoute w req =
      { status := 200, contentType := some "application/json",
        cacheControl := some CACHE_CONTROL,
        body := .single (getRepoInfo w (.str u) .undefined).1 } := by
  rw [repoInfoRoute, h]
  exact if_neg hu

/-- C7, amended: request-shape failures fail the whole request — a
non-POST to `/api/repos-info` yields 405 with `Allow: POST`; a POST
whose parsed body is a value on which `repos` reads as missing or
non-list yields 400; a GET to `/api/repo-info` without the `repo`
parameter yields 400; these responses carry only
`Content-Type: application/json` (no cache header).  The carve-out from
the original claim: a body that parses to JSON `null` throws on the
destructuring `const { repos } = body` and yields 500, not 400 (see the
counterexample). -/
theorem c7_request_shape :
    (∀ (w : World) (req : InboundRequest) (tok : JsVal),
      req.pathname = "/api/repos-info" → req.method ≠ "POST" →
      onRequest w req tok = .response
        { status := 405, contentType := some "application/json", allow := some "POST",
          body := .errorMsg "Method not allowed. Use POST." }) ∧
    (∀ (w : World) (req : InboundRequest) (tok : JsVal) (body rv : JsVal),
      req.pathname = "/api/repos-info" → req.method = "POST" →
      req.jsonBody = .ok body → body.getProp "repos" = .ok rv →
      (!rv.truthy || !rv.isArray) = true →
      onRequest w req tok = .response
        { status := 400, contentType := some "application/json",
          body := .errorMsg "Invalid request. Provide an array of repo URLs." }) ∧
    (∀ (w : World) (req : InboundRequest) (tok : JsVal),
      req.pathname = "/api/repo-info" → req.repoParam = none →
      onRequest w req tok = .response
        { status := 400, contentType := some "application/json",
          body := .errorMsg "Missing repo parameter" }) := by
  refine ⟨?_, ?_, ?_⟩
  · intro w req tok hpath hmethod
    simp only [onRequest, hpath, reposInfoRoute, if_true, reduceIte,
      bne_iff_ne, ne_eq, hmethod, not_false_eq_true]
  · intro w req tok body rv hpath hmethod hbody hrepos hbad
    simp only [onRequest, hpath, reposInfoRoute, hmethod, hbody, hrepos, hbad,
      bne_self_eq_false, Bool.false_eq_true, if_false, if_true, reduceIte]
  · intro w req tok hpath hparam
    rw [onRequest, hpath,
      if_neg (show ¬(("/api/repo-info" : String) = "/api/repos-info") from by decide),
      if_pos rfl, repoInfoRoute_none w req hparam]

/-- C10, amended: on the single-lookup route the 500 branch is
unreachable (the Fetcher never rejects), and whenever the `repo` query
parameter is present *and nonempty* the response is a 200 with
`Content-Type: application/json` and `Cache-Control: public,
max-age=3600`, built from the Fetcher run without a credential.  The
carve-out from the original claim: a present-but-empty `repo`
parameter is falsy in JS and takes the 400 branch (see the
counterexample). -/
theorem c10_single_route (w : World) (req : InboundRequest) (tok : JsVal) :
    (∀ u : String, req.pathname = "/api/repo-info" → req.repoParam = some u → u ≠ "" →
      onRequest w req tok = .response
        { status := 200, contentType := some "application/json",
          cacheControl := some CACHE_CONTROL,
          body := .single (getRepoInfo w (.str u) .undefined).1 }) ∧
    (req.pathname = "/api/repo-info" →
      ∀ r : HttpResponse, onRequest w req tok = .response r → r.status ≠ 500) := by
  constructor
  · intro u hpath hparam hne
    rw [onRequest, hpath,
      if_neg (show ¬(("/api/repo-info" : String) = "/api/repos-info") from by decide),
      if_pos rfl, repoInfoRoute_some w req u hparam hne]
  · intro hpath r hr
    rw [onRequest, hpath,
      if_neg (show ¬(("/api/repo-info" : String) = "/api/repos-info") from by decide),
      if_pos rfl] at hr
    simp only [HandlerResult.response.injEq] at hr
    subst hr
    cases hq : req.repoParam with
    | none =>
      rw [repoInfoRoute_none w req hq]
      decide
    | some u =>
      by_cases hu : u = ""
      · subst hu
        rw [repoInfoRoute_empty w req hq]
        decide
      · rw [repoInfoRoute_some w req u hq hu]
        exact (by decide : (200 : Nat) ≠ 500)


/-- C7, counterexample: a POST whose body is JSON `null` lacks `repos`,
but the destructuring `const {repos} = body` throws, so the route's
catch produces a 500, not the 400 the claim requires. -/
theorem c7_counterexample :
    onRequest ⟨fun _ => Except.error "x"⟩
        ⟨"/api/repos-info", "POST", Except.ok JsVal.null, none⟩ JsVal.undefined =
      .response
        { status := 500, contentType := some "application/json",
          body := .errorMsg "Cannot read properties of null (reading repos)" } ∧
    (500 : Nat) ≠ 400 :=
  ⟨rfl, by decide⟩

/-- C7, witness: the three amended branches evaluated on concrete
requests. -/
theorem c7_request_shape_witness :
    onRequest ⟨fun _ => Except.error "e"⟩
        ⟨"/api/repos-info", "GET", Except.error "e", none⟩ JsVal.undefined =
      .response
        { status := 405, contentType := some "application/json", allow := some "POST",
          body := .errorMsg "Method not allowed. Use POST." } ∧
    onRequest ⟨fun _ => Except.error "e"⟩
        ⟨"/api/repos-info", "POST", Except.ok (.obj []), none⟩ JsVal.undefined =
      .response
        { status := 400, contentType := some "application/json",
          body := .errorMsg "Invalid request. Provide an array of repo URLs." } ∧
    onRequest ⟨fun _ => Except.error "e"⟩
        ⟨"/api/repo-info", "GET", Except.error "e", none⟩ JsVal.undefined =
      .response
        { status := 400, contentType := some "application/json",
          body := .errorMsg "Missing repo parameter" } := by
  refine ⟨?_, ?_, ?_⟩
  · exact c7_request_shape.1 _ _ _ rfl (by decide)
  · exact c7_request_shape.2.1 _ _ _ (.obj []) JsVal.undefined rfl rfl rfl rfl rfl
  · exact c7_request_shape.2.2 _ _ _ rfl rfl

/-- C2, witness: a batch POST with a duplicated reference under
`sampleWorld` — the map has a single `a/b` key holding the Fetcher's
result. -/
theorem c2_batch_witness :
    onRequest sampleWorld
        ⟨"/api/repos-info", "POST",
         Except.ok (.obj [("repos", .arr [JsVal.str "a/b", JsVal.str "a/b"])]), none⟩
        JsVal.undefined =
      .response
        { status := 200, contentType := some "application/json",
          cacheControl := some CACHE_CONTROL,
          body := .repoMap (buildRepoMap sampleWorld
            ((["a/b", "a/b"] : List String).map JsVal.str) JsVal.undefined) } ∧
    ((buildRepoMap sampleWorld ((["a/b", "a/b"] : List String).map JsVal.str)
        JsVal.undefined).map Prod.fst).Nodup ∧
    (buildRepoMap sampleWorld ((["a/b", "a/b"] : List String).map JsVal.str)
        JsVal.undefined).lookup "a/b" =
      some (getRepoInfo sampleWorld (JsVal.str "a/b") JsVal.undefined).1 := by
  have h := c2_batch sampleWorld JsVal.undefined
      ⟨"/api/repos-info", "POST",
       Except.ok (.obj [("repos", .arr [JsVal.str "a/b", JsVal.str "a/b"])]), none⟩
      (.obj [("repos", .arr [JsVal.str "a/b", JsVal.str "a/b"])]) ["a/b", "a/b"]
      rfl rfl rfl rfl
  exact ⟨h.1, h.2.1, h.2.2.2 "a/b" (by decide)⟩

/-- C10, counterexample: `?repo=` supplies the parameter as the empty
string, which is falsy in JS, so the route answers 400 — not the 200
with cache header that the claim asserts for every present parameter. -/
theorem c10_counterexample :
    onRequest ⟨fun _ => Except.error "x"⟩
        ⟨"/api/repo-info", "GET", Except.error "no body", some ""⟩ JsVal.undefined =
      .response
        { status := 400, contentType := some "application/json",
          body := .errorMsg "Missing repo parameter" } ∧
    (400 : Nat) ≠ 200 :=
  ⟨rfl, by decide⟩

/-- C10, witness: a nonempty `repo` parameter under `sampleWorld`
produces the cached 200 response. -/
theorem c10_single_route_witness :
    onRequest sampleWorld ⟨"/api/repo-info", "GET", Except.error "e", some "a/b"⟩
        JsVal.undefined =
      .response
        { status := 200, contentType := some "application/json",
          cacheControl := some CACHE_CONTROL,
          body := .single (getRepoInfo sampleWorld (JsVal.str "a/b") JsVal.undefined).1 } :=
  (c10_single_route sampleWorld ⟨"/api/repo-info", "GET", Except.error "e", some "a/b"⟩
      JsVal.undefined).1 "a/b" rfl rfl (by decide)
